import Mathlib

/-!
Shallow embedding of `SimPEG/Mesh/TensorMesh.py` (classes `BaseTensorMesh`
and `TensorMesh`) over exact rational arithmetic.  Numpy arrays become
`List ℚ`, sparse operators become Mathlib matrices over `ℚ`, `None` becomes
`Option.none`, and raised exceptions become `Option.none` results.
-/

namespace SimPEG

/-- Embeds numpy `arr.min()` for the nonempty arrays used by `isInside`
(the value on `[]` is an arbitrary default; numpy would raise there). -/
def npMin (l : List ℚ) : ℚ :=
  match l with
  | [] => 0
  | x :: t => t.foldl min x

/-- Embeds numpy `arr.max()` for the nonempty arrays used by `isInside`. -/
def npMax (l : List ℚ) : ℚ :=
  match l with
  | [] => 0
  | x :: t => t.foldl max x

/-- Embeds numpy `arr.mean()` (used on the nonempty cell-center vectors). -/
def npMean (l : List ℚ) : ℚ := l.sum / l.length

/-- The per-axis origin specification accepted by `BaseTensorMesh.__init__`:
either a numeric scalar or a symbolic string code. -/
inductive X0Entry where
  | num (v : ℚ)
  | sym (s : String)
deriving DecidableEq

/-- Embeds one iteration of the origin-resolution loop of
`BaseTensorMesh.__init__` (lines 39-49): a numeric entry is used verbatim;
`"0"` gives `0`; `"C"` gives `-h_i.sum()*0.5`; `"N"` gives `-h_i.sum()`;
anything else raises, embedded as `Option.none`. -/
def x0Entry (h_i : List ℚ) (x_i : X0Entry) : Option ℚ :=
  match x_i with
  | X0Entry.num v => some v
  | X0Entry.sym s =>
    if s = "0" then some 0
    else if s = "C" then some (-h_i.sum * (1/2))
    else if s = "N" then some (-h_i.sum)
    else Option.none

/-- Embeds the whole `for i in range(len(h))` loop of lines 38-49: every
entry resolves or the constructor raises. -/
def resolveX0List : List (List ℚ) → List X0Entry → Option (List ℚ)
  | [], [] => some []
  | h_i :: ht, x :: xt =>
    match x0Entry h_i x with
    | Option.none => Option.none
    | some v => (resolveX0List ht xt).map (fun l => v :: l)
  | _, _ => Option.none

/-- Embeds the origin resolution of `BaseTensorMesh.__init__`
(lines 35-49): `x0` defaults to the zero vector; otherwise its length must
match `h` (the `assert` on line 37) and each entry is resolved by
`x0Entry`. -/
def buildX0 (h : List (List ℚ)) (x0_in : Option (List X0Entry)) :
    Option (List ℚ) :=
  match x0_in with
  | Option.none => some (List.replicate h.length 0)
  | some xs =>
    if xs.length = h.length then resolveX0List h xs
    else Option.none

/-- A tensor mesh after construction: per-axis width arrays `h` and the
resolved origin vector `x0` (`BaseTensorMesh` stores exactly these). -/
structure TensorMesh where
  h : List (List ℚ)
  x0 : List ℚ

/-- Embeds `vectorNx` (and `vectorNy`/`vectorNz`), line 79:
`np.r_[0., hx.cumsum()] + x0` — the running sums of the widths prefixed
with `0`, shifted by the axis origin. -/
def nodeVec (h : List ℚ) (x0 : ℚ) : List ℚ :=
  (List.scanl (· + ·) 0 h).map (· + x0)

/-- Embeds `vectorCCx` (and y/z), line 94:
`np.r_[0, hx[:-1].cumsum()] + hx*0.5 + x0`. -/
def ccVec (h : List ℚ) (x0 : ℚ) : List ℚ :=
  (List.zipWith (fun s w => s + w * (1/2))
    ((List.scanl (· + ·) 0 h).dropLast) h).map (· + x0)

/-- Node vector of axis `i` of a mesh; `Option.none` embeds the Python
`None` returned when the mesh dimension is too low (lines 84, 89). -/
def TensorMesh.vectorN (m : TensorMesh) (i : ℕ) : Option (List ℚ) :=
  if i < m.h.length then some (nodeVec (m.h.getD i []) (m.x0.getD i 0))
  else Option.none

/-- Cell-center vector of axis `i`; `Option.none` when the dimension is
too low (lines 99, 104). -/
def TensorMesh.vectorCC (m : TensorMesh) (i : ℕ) : Option (List ℚ) :=
  if i < m.h.length then some (ccVec (m.h.getD i []) (m.x0.getD i 0))
  else Option.none

/-- Embeds `BaseTensorMesh.getTensor` (lines 152-188): the selector table
from location-type strings to the three per-axis vectors, with `None`
axes dropped.  An unrecognized string leaves Python's `ten` unbound and
the method raises; this is embedded as `Option.none`. -/
def TensorMesh.getTensor (m : TensorMesh) (locType : String) :
    Option (List (List ℚ)) :=
  let N := m.vectorN
  let C := m.vectorCC
  let ten : Option (List (Option (List ℚ))) :=
    if locType = "Fx" then some [N 0, C 1, C 2]
    else if locType = "Fy" then some [C 0, N 1, C 2]
    else if locType = "Fz" then some [C 0, C 1, N 2]
    else if locType = "Ex" then some [C 0, N 1, N 2]
    else if locType = "Ey" then some [N 0, C 1, N 2]
    else if locType = "Ez" then some [N 0, N 1, C 2]
    else if locType = "CC" then some [C 0, C 1, C 2]
    else if locType = "N" then some [N 0, N 1, N 2]
    else Option.none
  ten.map (List.filterMap id)

/-- Embeds the membership loop of `isInside` (lines 208-211): a point is
kept iff on every axis its coordinate lies within the closed interval
between the min and the max of that axis's selector vector. -/
def insideCore (tensors : List (List ℚ)) (pts : List (List ℚ)) :
    List Bool :=
  pts.map (fun p =>
    (List.range tensors.length).all (fun i =>
      decide (npMin (tensors.getD i []) ≤ p.getD i 0) &&
      decide (p.getD i 0 ≤ npMax (tensors.getD i []))))

/-- Embeds `BaseTensorMesh.isInside` (lines 192-211) for a mesh whose
`_meshType` is `TENSOR`/`BASETENSOR`, so the `CYL` special case on
line 204 is never taken.  Points are assumed shaped `M × dim`
(`Utils.asArray_N_x_Dim`). -/
def TensorMesh.isInside (m : TensorMesh) (pts : List (List ℚ))
    (locType : String) : Option (List Bool) :=
  (m.getTensor locType).map (fun tensors => insideCore tensors pts)

/-- Embeds `TensorMesh.vol` for 1-D (line 478): the widths themselves. -/
def vol1 (h1 : List ℚ) : List ℚ := h1

/-- Embeds `Utils.mkvc(np.outer(a, b))`: the outer product `a_i * b_j`
flattened in Fortran order (first index fastest), as used by
`TensorMesh.vol` on lines 481 and 484. -/
def mkvcOuter (a b : List ℚ) : List ℚ :=
  (b.map (fun y => a.map (fun x => x * y))).flatten

/-- Embeds `TensorMesh.vol` (lines 471-485): per-cell volumes as the
outer product of the per-axis width arrays, flattened. -/
def TensorMesh.vol (m : TensorMesh) : List ℚ :=
  match m.h with
  | [h1] => vol1 h1
  | [h1, h2] => mkvcOuter h1 h2
  | [h1, h2, h3] => mkvcOuter (mkvcOuter h1 h2) h3
  | _ => []

/-! Helper lemmas about scanl, folds and the derived vectors. -/

theorem foldl_min_le_init (l : List ℚ) (a : ℚ) : l.foldl min a ≤ a := by
  induction l generalizing a with
  | nil => exact le_refl a
  | cons b t ih =>
    calc t.foldl min (min a b) ≤ min a b := ih (min a b)
    _ ≤ a := min_le_left a b

theorem foldl_min_le_mem {l : List ℚ} {x : ℚ} (hx : x ∈ l) (a : ℚ) :
    l.foldl min a ≤ x := by
  induction l generalizing a with
  | nil => cases hx
  | cons b t ih =>
    rcases List.mem_cons.mp hx with h | h
    · subst h
      calc t.foldl min (min a x) ≤ min a x := foldl_min_le_init t _
      _ ≤ x := min_le_right a x
    · exact ih h (min a b)

theorem le_foldl_max_init (l : List ℚ) (a : ℚ) : a ≤ l.foldl max a := by
  induction l generalizing a with
  | nil => exact le_refl a
  | cons b t ih =>
    calc a ≤ max a b := le_max_left a b
    _ ≤ t.foldl max (max a b) := ih (max a b)

theorem mem_le_foldl_max {l : List ℚ} {x : ℚ} (hx : x ∈ l) (a : ℚ) :
    x ≤ l.foldl max a := by
  induction l generalizing a with
  | nil => cases hx
  | cons b t ih =>
    rcases List.mem_cons.mp hx with h | h
    · subst h
      calc x ≤ max a x := le_max_right a x
      _ ≤ t.foldl max (max a x) := le_foldl_max_init t _
    · exact ih h (max a b)

theorem npMin_le_mem {l : List ℚ} {x : ℚ} (hx : x ∈ l) : npMin l ≤ x := by
  cases l with
  | nil => cases hx
  | cons b t =>
    rcases List.mem_cons.mp hx with h | h
    · subst h; exact foldl_min_le_init t x
    · exact foldl_min_le_mem h b

theorem mem_le_npMax {l : List ℚ} {x : ℚ} (hx : x ∈ l) : x ≤ npMax l := by
  cases l with
  | nil => cases hx
  | cons b t =>
    rcases List.mem_cons.mp hx with h | h
    · subst h; exact le_foldl_max_init t x
    · exact mem_le_foldl_max h b

theorem npMax_le_of_forall {l : List ℚ} {c : ℚ} (hne : l ≠ [])
    (h : ∀ x ∈ l, x ≤ c) : npMax l ≤ c := by
  cases l with
  | nil => exact absurd rfl hne
  | cons b t =>
    show t.foldl max b ≤ c
    clear hne
    induction t generalizing b with
    | nil => exact h b (List.mem_cons_self b [])
    | cons y s ih =>
      refine ih (max b y) ?_
      intro x hx
      rcases List.mem_cons.mp hx with hb | hx
      · subst hb
        exact max_le (h b (List.mem_cons_self _ _))
          (h y (List.mem_cons.mpr (Or.inr (List.mem_cons_self _ _))))
      · exact h x (List.mem_cons.mpr (Or.inr (List.mem_cons.mpr (Or.inr hx))))

theorem scanl_ne_nil (h : List ℚ) (a : ℚ) :
    List.scanl (· + ·) a h ≠ [] := by
  cases h <;> simp [List.scanl]

theorem mem_scanl_bounds {h : List ℚ} (hpos : ∀ w ∈ h, 0 < w) (a : ℚ) :
    ∀ y ∈ List.scanl (· + ·) a h, a ≤ y ∧ y ≤ a + h.sum := by
  induction h generalizing a with
  | nil =>
    intro y hy
    simp only [List.scanl] at hy
    rcases List.mem_singleton.mp hy with rfl
    simp
  | cons w t ih =>
    intro y hy
    have hw : 0 < w := hpos w (List.mem_cons_self _ _)
    have hts : 0 ≤ t.sum := by
      refine List.sum_nonneg ?_
      intro x hx
      exact le_of_lt (hpos x (List.mem_cons.mpr (Or.inr hx)))
    simp only [List.scanl] at hy
    rcases List.mem_cons.mp hy with rfl | hy
    · constructor
      · exact le_refl y
      · have : (0 : ℚ) ≤ w + t.sum := by linarith
        simp only [List.sum_cons]
        linarith
    · have := ih (fun x hx => hpos x (List.mem_cons.mpr (Or.inr hx))) (a + w) y hy
      constructor
      · linarith [this.1]
      · simp only [List.sum_cons]
        linarith [this.2]

theorem mem_nodeVec_bounds {h : List ℚ} (hpos : ∀ w ∈ h, 0 < w) (x : ℚ) :
    ∀ y ∈ nodeVec h x, x ≤ y ∧ y ≤ x + h.sum := by
  intro y hy
  rcases List.mem_map.mp hy with ⟨z, hz, rfl⟩
  have := mem_scanl_bounds hpos 0 z hz
  constructor
  · linarith [this.1]
  · linarith [this.2]

theorem mem_ccVec_aux {t : List ℚ} (hpos : ∀ w ∈ t, 0 < w) (a : ℚ) :
    ∀ y ∈ List.zipWith (fun s w => s + w * (1/2))
      ((List.scanl (· + ·) a t).dropLast) t,
      a < y ∧ y < a + t.sum := by
  induction t generalizing a with
  | nil =>
    intro y hy
    simp [List.scanl] at hy
  | cons w s ih =>
    intro y hy
    have hw : 0 < w := hpos w (List.mem_cons_self _ _)
    have hss : 0 ≤ s.sum := by
      refine List.sum_nonneg ?_
      intro x hx
      exact le_of_lt (hpos x (List.mem_cons.mpr (Or.inr hx)))
    simp only [List.scanl] at hy
    rw [List.dropLast_cons_of_ne_nil (scanl_ne_nil s (a + w))] at hy
    simp only [List.zipWith_cons_cons] at hy
    rcases List.mem_cons.mp hy with rfl | hy
    · constructor
      · linarith
      · simp only [List.sum_cons]; linarith
    · have := ih (fun x hx => hpos x (List.mem_cons.mpr (Or.inr hx))) (a + w) y hy
      constructor
      · linarith [this.1]
      · simp only [List.sum_cons]; linarith [this.2]

theorem mem_ccVec_bounds {h : List ℚ} (hpos : ∀ w ∈ h, 0 < w) (x : ℚ) :
    ∀ y ∈ ccVec h x, x < y ∧ y < x + h.sum := by
  intro y hy
  rcases List.mem_map.mp hy with ⟨z, hz, rfl⟩
  have := mem_ccVec_aux hpos 0 z hz
  constructor
  · linarith [this.1]
  · linarith [this.2]

theorem chain_lt_scanl {h : List ℚ} (hpos : ∀ w ∈ h, 0 < w) (a : ℚ) :
    List.Chain' (· < ·) (List.scanl (· + ·) a h) := by
  induction h generalizing a with
  | nil => simp [List.scanl]
  | cons w t ih =>
    have hw : 0 < w := hpos w (List.mem_cons_self _ _)
    simp only [List.scanl]
    refine List.chain'_cons'.mpr ⟨?_, ih (fun x hx => hpos x (List.mem_cons.mpr (Or.inr hx))) (a + w)⟩
    intro y hy
    cases t with
    | nil =>
      simp [List.scanl] at hy
      subst hy; linarith
    | cons u s =>
      simp [List.scanl] at hy
      subst hy; linarith

theorem scanl_map_getLast? (h : List ℚ) (a x : ℚ) :
    ((List.scanl (· + ·) a h).map (· + x)).getLast? = some (a + x + h.sum) := by
  induction h generalizing a with
  | nil => simp [List.scanl]
  | cons w t ih =>
    simp only [List.scanl, List.map_cons]
    rw [List.getLast?_cons, ih (a + w)]
    simp only [Option.getD_some, List.sum_cons, Option.some_inj]
    ring

theorem nodeVec_head? (h : List ℚ) (x : ℚ) :
    (nodeVec h x).head? = some x := by
  cases h <;> simp [nodeVec, List.scanl]

/-- The node vector of axis `i`, as a total function (meaningful for
`i < m.h.length`). -/
def nodeVecAt (m : TensorMesh) (i : ℕ) : List ℚ :=
  nodeVec (m.h.getD i []) (m.x0.getD i 0)

/-- The cell-center vector of axis `i`, as a total function. -/
def ccVecAt (m : TensorMesh) (i : ℕ) : List ℚ :=
  ccVec (m.h.getD i []) (m.x0.getD i 0)

/-- The eight location-type strings understood by `getTensor`. -/
def locTypes : List String :=
  ["Fx", "Fy", "Fz", "Ex", "Ey", "Ez", "CC", "N"]

/-- The selector table of the specification: which axes of a location
type use the node vector (`true`) as opposed to the cell-center vector. -/
def nodeSel (s : String) (i : ℕ) : Bool :=
  if s = "N" then true
  else if s = "CC" then false
  else if s = "Fx" then decide (i = 0)
  else if s = "Fy" then decide (i = 1)
  else if s = "Fz" then decide (i = 2)
  else if s = "Ex" then decide (¬ i = 0)
  else if s = "Ey" then decide (¬ i = 1)
  else decide (¬ i = 2)

theorem getTensor_known (m : TensorMesh) (hd1 : 1 ≤ m.h.length)
    (hd3 : m.h.length ≤ 3) (s : String) (hs : s ∈ locTypes) :
    m.getTensor s = some ((List.range m.h.length).map (fun i =>
      if nodeSel s i then nodeVecAt m i else ccVecAt m i)) := by
  rcases m with ⟨h, x0⟩
  rcases h with _ | ⟨a, h⟩
  · exact absurd hd1 (by simp)
  rcases h with _ | ⟨b, h⟩
  · fin_cases hs <;> rfl
  rcases h with _ | ⟨c, h⟩
  · fin_cases hs <;> rfl
  rcases h with _ | ⟨e, h⟩
  · fin_cases hs <;> rfl
  · exfalso
    simp only [List.length_cons] at hd3
    omega

theorem getTensor_unknown (m : TensorMesh) {s : String}
    (hs : s ∉ locTypes) : m.getTensor s = Option.none := by
  have n1 : ¬ s = "Fx" := fun he => hs (by rw [he]; decide)
  have n2 : ¬ s = "Fy" := fun he => hs (by rw [he]; decide)
  have n3 : ¬ s = "Fz" := fun he => hs (by rw [he]; decide)
  have n4 : ¬ s = "Ex" := fun he => hs (by rw [he]; decide)
  have n5 : ¬ s = "Ey" := fun he => hs (by rw [he]; decide)
  have n6 : ¬ s = "Ez" := fun he => hs (by rw [he]; decide)
  have n7 : ¬ s = "CC" := fun he => hs (by rw [he]; decide)
  have n8 : ¬ s = "N" := fun he => hs (by rw [he]; decide)
  simp only [TensorMesh.getTensor, if_neg n1, if_neg n2, if_neg n3,
    if_neg n4, if_neg n5, if_neg n6, if_neg n7, if_neg n8]
  rfl

theorem getTensor_axes (m : TensorMesh) (hd1 : 1 ≤ m.h.length)
    (hd3 : m.h.length ≤ 3) {s : String} {t : List (List ℚ)}
    (ht : m.getTensor s = some t) :
    t.length = m.h.length ∧
      ∀ i, i < t.length →
        t.getD i [] = nodeVecAt m i ∨ t.getD i [] = ccVecAt m i := by
  by_cases hs : s ∈ locTypes
  · rw [getTensor_known m hd1 hd3 s hs] at ht
    have ht' := Option.some_inj.mp ht
    subst ht'
    constructor
    · simp
    · intro i hi
      simp only [List.length_map, List.length_range] at hi
      have : ((List.range m.h.length).map (fun i =>
          if nodeSel s i then nodeVecAt m i else ccVecAt m i)).getD i [] =
          (if nodeSel s i then nodeVecAt m i else ccVecAt m i) := by
        rw [List.getD_eq_getElem?_getD, List.getElem?_map,
          List.getElem?_range hi]
        rfl
      rw [this]
      by_cases hn : nodeSel s i
      · rw [if_pos hn]; exact Or.inl rfl
      · rw [if_neg hn]; exact Or.inr rfl
  · rw [getTensor_unknown m hs] at ht
    cases ht

theorem sum_mkvcOuter (a b : List ℚ) :
    (mkvcOuter a b).sum = a.sum * b.sum := by
  unfold mkvcOuter
  induction b with
  | nil => simp
  | cons y t ih =>
    simp only [List.map_cons, List.flatten_cons, List.sum_append, List.sum_cons, ih]
    have hmap : ∀ l : List ℚ, (l.map (fun x => x * y)).sum = l.sum * y := by
      intro l
      induction l with
      | nil => simp
      | cons z s ihs =>
        simp only [List.map_cons, List.sum_cons, ihs]
        ring
    rw [hmap]; ring

theorem mem_of_head? {l : List ℚ} {x : ℚ} (h : l.head? = some x) :
    x ∈ l := by
  cases l with
  | nil => cases h
  | cons a t =>
    simp only [List.head?_cons, Option.some_inj] at h
    exact h ▸ List.mem_cons_self a t

theorem mem_of_getLast? {l : List ℚ} {x : ℚ} (h : l.getLast? = some x) :
    x ∈ l := by
  induction l with
  | nil => cases h
  | cons a t ih =>
    cases t with
    | nil =>
      simp only [List.getLast?_singleton, Option.some_inj] at h
      exact h ▸ List.mem_cons_self a []
    | cons b s =>
      rw [List.getLast?_cons_cons] at h
      exact List.mem_cons.mpr (Or.inr (ih h))

theorem head_mem_nodeVec (h : List ℚ) (x : ℚ) : x ∈ nodeVec h x :=
  mem_of_head? (nodeVec_head? h x)

theorem last_mem_nodeVec (h : List ℚ) (x : ℚ) : x + h.sum ∈ nodeVec h x := by
  have := scanl_map_getLast? h 0 x
  have h0 : (0 : ℚ) + x + h.sum = x + h.sum := by ring
  rw [h0] at this
  exact mem_of_getLast? this

theorem npMax_nodeVec_ge (h : List ℚ) (x : ℚ) :
    x + h.sum ≤ npMax (nodeVec h x) :=
  mem_le_npMax (last_mem_nodeVec h x)

theorem npMin_nodeVec_le (h : List ℚ) (x : ℚ) :
    npMin (nodeVec h x) ≤ x :=
  npMin_le_mem (head_mem_nodeVec h x)

theorem npMax_ccVec_le_npMax_nodeVec {h : List ℚ}
    (hpos : ∀ w ∈ h, 0 < w) (hne : h ≠ []) (x : ℚ) :
    npMax (ccVec h x) ≤ npMax (nodeVec h x) := by
  have hccne : ccVec h x ≠ [] := by
    cases h with
    | nil => exact absurd rfl hne
    | cons w t =>
      simp only [ccVec, List.scanl, ne_eq, List.map_eq_nil_iff]
      rw [List.dropLast_cons_of_ne_nil (scanl_ne_nil t (0 + w))]
      simp
  refine npMax_le_of_forall hccne ?_
  intro y hy
  have hb := (mem_ccVec_bounds hpos x y hy).2
  calc y ≤ x + h.sum := le_of_lt hb
  _ ≤ npMax (nodeVec h x) := npMax_nodeVec_ge h x

/-! Claim theorems about selectors, node vectors and volumes. -/

/-- C6: for each of the eight location types `getTensor` returns the
per-axis vectors prescribed by the selector table (CC → cc on every axis;
N → node; Fx → node only on axis 0; Fy on axis 1; Fz on axis 2;
Ex → node except axis 0; Ey except axis 1; Ez except axis 2), with axes
beyond the mesh dimension dropped; an unknown location type is an error
(embedded as `Option.none`, for Python's unbound-`ten` exception). -/
theorem getTensor_follows_selector_table (m : TensorMesh)
    (hd1 : 1 ≤ m.h.length) (hd3 : m.h.length ≤ 3) :
    (m.getTensor "CC" = some ((List.range m.h.length).map
        (fun i => ccVecAt m i)))
    ∧ (m.getTensor "N" = some ((List.range m.h.length).map
        (fun i => nodeVecAt m i)))
    ∧ (m.getTensor "Fx" = some ((List.range m.h.length).map
        (fun i => if i = 0 then nodeVecAt m i else ccVecAt m i)))
    ∧ (m.getTensor "Fy" = some ((List.range m.h.length).map
        (fun i => if i = 1 then nodeVecAt m i else ccVecAt m i)))
    ∧ (m.getTensor "Fz" = some ((List.range m.h.length).map
        (fun i => if i = 2 then nodeVecAt m i else ccVecAt m i)))
    ∧ (m.getTensor "Ex" = some ((List.range m.h.length).map
        (fun i => if i = 0 then ccVecAt m i else nodeVecAt m i)))
    ∧ (m.getTensor "Ey" = some ((List.range m.h.length).map
        (fun i => if i = 1 then ccVecAt m i else nodeVecAt m i)))
    ∧ (m.getTensor "Ez" = some ((List.range m.h.length).map
        (fun i => if i = 2 then ccVecAt m i else nodeVecAt m i)))
    ∧ (∀ s : String, s ∉ locTypes → m.getTensor s = Option.none) := by
  refine ⟨?_, ?_, ?_, ?_, ?_, ?_, ?_, ?_, fun s hs => getTensor_unknown m hs⟩
  all_goals
    rcases m with ⟨h, x0⟩
    rcases h with _ | ⟨a, h⟩
    · exact absurd hd1 (by simp)
    rcases h with _ | ⟨b, h⟩
    · rfl
    rcases h with _ | ⟨c, h⟩
    · rfl
    rcases h with _ | ⟨e, h⟩
    · rfl
    · exfalso
      simp only [List.length_cons] at hd3
      omega

/-- Witness for C6 on the concrete 2-D mesh `h = [[1,1],[2,2]]`,
`x0 = [0,0]`. -/
theorem getTensor_follows_selector_table_witness :
    1 ≤ (TensorMesh.mk [[1, 1], [2, 2]] [0, 0]).h.length ∧
    (TensorMesh.mk [[1, 1], [2, 2]] [0, 0]).h.length ≤ 3 ∧
    ((TensorMesh.mk [[1, 1], [2, 2]] [0, 0]).getTensor "Fx" =
      some ((List.range 2).map (fun i =>
        if i = 0 then nodeVecAt (TensorMesh.mk [[1, 1], [2, 2]] [0, 0]) i
        else ccVecAt (TensorMesh.mk [[1, 1], [2, 2]] [0, 0]) i))) := by
  refine ⟨by decide, by decide, ?_⟩
  exact (getTensor_follows_selector_table
    (TensorMesh.mk [[1, 1], [2, 2]] [0, 0]) (by decide) (by decide)).2.2.1

/-- C9: for a mesh whose widths are all strictly positive, every existing
axis node vector has length `len(h_i) + 1`, is strictly increasing, and
conserves width: `sum(h_i) = node_i[-1] - node_i[0]`. -/
theorem nodeVec_length_mono_conservation (m : TensorMesh)
    (hpos : ∀ hi ∈ m.h, ∀ w ∈ hi, 0 < w) (i : ℕ) (nv : List ℚ)
    (hnv : m.vectorN i = some nv) :
    nv.length = (m.h.getD i []).length + 1 ∧
    List.Chain' (· < ·) nv ∧
    (m.h.getD i []).sum = nv.getLastD 0 - nv.headD 0 := by
  have hi : i < m.h.length := by
    by_contra hc
    simp [TensorMesh.vectorN, hc] at hnv
  have hmem : m.h.getD i [] ∈ m.h := by
    rw [List.getD_eq_getElem?_getD, List.getElem?_eq_getElem hi]
    exact List.getElem_mem hi
  have hp : ∀ w ∈ m.h.getD i [], 0 < w := hpos _ hmem
  have hv : nv = nodeVec (m.h.getD i []) (m.x0.getD i 0) := by
    simp only [TensorMesh.vectorN, if_pos hi, Option.some_inj] at hnv
    exact hnv.symm
  subst hv
  refine ⟨?_, ?_, ?_⟩
  · simp [nodeVec, List.length_scanl]
  · refine (List.chain'_map (· + m.x0.getD i 0)).mpr ?_
    exact (chain_lt_scanl hp 0).imp
      (fun a b hab => add_lt_add_right hab (m.x0.getD i 0))
  · rw [List.getLastD_eq_getLast?, List.headD_eq_head?]
    rw [show nodeVec (m.h.getD i []) (m.x0.getD i 0) =
      (List.scanl (· + ·) 0 (m.h.getD i [])).map (· + m.x0.getD i 0) from rfl]
    rw [scanl_map_getLast? (m.h.getD i []) 0 (m.x0.getD i 0)]
    rw [show ((List.scanl (· + ·) 0 (m.h.getD i [])).map
      (· + m.x0.getD i 0)).head? = some (m.x0.getD i 0) from
      nodeVec_head? (m.h.getD i []) (m.x0.getD i 0)]
    simp only [Option.getD_some]
    ring

/-- Witness for C9 on the 1-D mesh `h = [[1,2]]`, `x0 = [5]`:
node vector `[5,6,8]`. -/
theorem nodeVec_length_mono_conservation_witness :
    (∀ hi ∈ (TensorMesh.mk [[1, 2]] [5]).h, ∀ w ∈ hi, 0 < w) ∧
    (TensorMesh.mk [[1, 2]] [5]).vectorN 0 = some (nodeVec [1, 2] 5) ∧
    ((nodeVec [1, 2] 5).length =
        (((TensorMesh.mk [[1, 2]] [5]).h.getD 0 []).length + 1) ∧
      List.Chain' (· < ·) (nodeVec [1, 2] 5) ∧
      ((TensorMesh.mk [[1, 2]] [5]).h.getD 0 []).sum =
        (nodeVec [1, 2] 5).getLastD 0 - (nodeVec [1, 2] 5).headD 0) := by
  refine ⟨?_, rfl, ?_⟩
  · intro hi hhi w hw
    fin_cases hhi
    fin_cases hw <;> norm_num
  · exact nodeVec_length_mono_conservation (TensorMesh.mk [[1, 2]] [5])
      (by intro hi hhi w hw; fin_cases hhi; fin_cases hw <;> norm_num)
      0 (nodeVec [1, 2] 5) rfl

/-- C10: for meshes of dimension 1, 2 or 3 the per-cell volumes sum to
the product over axes of the total axis widths. -/
theorem vol_sum_eq_prod (m : TensorMesh) (hd1 : 1 ≤ m.h.length)
    (hd3 : m.h.length ≤ 3) :
    m.vol.sum = (m.h.map List.sum).prod := by
  rcases m with ⟨h, x0⟩
  rcases h with _ | ⟨a, h⟩
  · exact absurd hd1 (by simp)
  rcases h with _ | ⟨b, h⟩
  · simp [TensorMesh.vol, vol1]
  rcases h with _ | ⟨c, h⟩
  · simp only [TensorMesh.vol, List.map_cons, List.map_nil, List.prod_cons,
      List.prod_nil, sum_mkvcOuter]
    ring
  rcases h with _ | ⟨e, h⟩
  · simp only [TensorMesh.vol, List.map_cons, List.map_nil, List.prod_cons,
      List.prod_nil, sum_mkvcOuter]
    ring
  · exfalso
    simp only [List.length_cons] at hd3
    omega

/-- Witness for C10: for `h = [[1,1],[2,2]]` the volumes sum to `8`. -/
theorem vol_sum_eq_prod_witness :
    1 ≤ (TensorMesh.mk [[1, 1], [2, 2]] [0, 0]).h.length ∧
    (TensorMesh.mk [[1, 1], [2, 2]] [0, 0]).h.length ≤ 3 ∧
    (TensorMesh.mk [[1, 1], [2, 2]] [0, 0]).vol.sum = 8 := by
  refine ⟨by decide, by decide, ?_⟩
  have := vol_sum_eq_prod (TensorMesh.mk [[1, 1], [2, 2]] [0, 0])
    (by decide) (by decide)
  rw [this]
  norm_num [List.map_cons, List.map_nil, List.prod_cons, List.prod_nil,
    List.sum_cons, List.sum_nil]

/-! Origin resolution (claim C8). -/

/-- The origin entries the specification declares acceptable: numerics
and the three symbolic codes. -/
def entryValidB : X0Entry → Bool
  | X0Entry.num _ => true
  | X0Entry.sym s => decide (s = "0") || decide (s = "C") || decide (s = "N")

/-- The per-axis origin value prescribed by the specification: a numeric
is used verbatim, `"0"` gives `0`, `"C"` gives `-sum(widths)/2`, `"N"`
gives `-sum(widths)`. -/
def entryVal (widths : List ℚ) : X0Entry → ℚ
  | X0Entry.num v => v
  | X0Entry.sym s =>
    if s = "0" then 0
    else if s = "C" then -widths.sum / 2
    else if s = "N" then -widths.sum
    else 0

theorem x0Entry_of_valid (h_i : List ℚ) (x : X0Entry)
    (hx : entryValidB x = true) : x0Entry h_i x = some (entryVal h_i x) := by
  cases x with
  | num v => rfl
  | sym s =>
    simp only [entryValidB, Bool.or_eq_true, decide_eq_true_eq] at hx
    rcases hx with (rfl | rfl) | rfl
    · rfl
    · show some (-h_i.sum * (1/2)) = some (-h_i.sum / 2)
      rw [Option.some_inj]
      ring
    · rfl

theorem x0Entry_of_invalid (h_i : List ℚ) (x : X0Entry)
    (hx : entryValidB x = false) : x0Entry h_i x = Option.none := by
  cases x with
  | num v => cases hx
  | sym s =>
    simp only [entryValidB, Bool.or_eq_false_iff, decide_eq_false_iff_not] at hx
    simp [x0Entry, hx.1.1, hx.1.2, hx.2]

theorem resolveX0List_ok : ∀ (h : List (List ℚ)) (xs : List X0Entry),
    xs.length = h.length → (∀ x ∈ xs, entryValidB x = true) →
    ∃ l, resolveX0List h xs = some l ∧ l.length = h.length ∧
      ∀ i, i < h.length →
        l.getD i 0 = entryVal (h.getD i []) (xs.getD i (X0Entry.num 0)) := by
  intro h
  induction h with
  | nil =>
    intro xs hlen _
    rcases List.length_eq_zero.mp hlen with rfl
    exact ⟨[], rfl, rfl, fun i hi => absurd hi (by simp)⟩
  | cons h_i ht ih =>
    intro xs hlen hval
    cases xs with
    | nil => cases hlen
    | cons x xt =>
      have hx := hval x (List.mem_cons_self _ _)
      have hxt : ∀ y ∈ xt, entryValidB y = true :=
        fun y hy => hval y (List.mem_cons.mpr (Or.inr hy))
      have hlen' : xt.length = ht.length := by
        simpa using hlen
      obtain ⟨l', hl', hlen'', hget⟩ := ih xt hlen' hxt
      refine ⟨entryVal h_i x :: l', ?_, by simp [hlen''], ?_⟩
      · simp only [resolveX0List, x0Entry_of_valid h_i x hx, hl',
          Option.map_some']
      · intro i hi
        cases i with
        | zero => simp
        | succ k =>
          simp only [List.getD_cons_succ]
          exact hget k (by simpa using hi)

theorem resolveX0List_fail : ∀ (h : List (List ℚ)) (xs : List X0Entry),
    xs.length = h.length → (∃ x ∈ xs, entryValidB x = false) →
    resolveX0List h xs = Option.none := by
  intro h
  induction h with
  | nil =>
    intro xs hlen hex
    rcases List.length_eq_zero.mp hlen with rfl
    simp at hex
  | cons h_i ht ih =>
    intro xs hlen hex
    cases xs with
    | nil => cases hlen
    | cons x xt =>
      rcases hex with ⟨y, hy, hyv⟩
      rcases List.mem_cons.mp hy with rfl | hy'
      · simp only [resolveX0List, x0Entry_of_invalid h_i y hyv]
      · cases hxv : entryValidB x with
        | false => simp only [resolveX0List, x0Entry_of_invalid h_i x hxv]
        | true =>
          have hlen' : xt.length = ht.length := by simpa using hlen
          simp only [resolveX0List, x0Entry_of_valid h_i x hxv,
            ih xt hlen' ⟨y, hy', hyv⟩, Option.map_none']

/-- C8: at construction each axis origin entry resolves as the
specification says (numeric verbatim, `"0"` → 0, `"C"` → `-sum/2`,
`"N"` → `-sum`); an unrecognized symbol makes construction fail with no
mesh; an omitted `x0_in` defaults to the zero vector. -/
theorem buildX0_resolution (h : List (List ℚ)) (xs : List X0Entry)
    (hlen : xs.length = h.length) :
    ((∀ x ∈ xs, entryValidB x = true) →
      ∃ l, buildX0 h (some xs) = some l ∧ l.length = h.length ∧
        ∀ i, i < h.length →
          l.getD i 0 = entryVal (h.getD i []) (xs.getD i (X0Entry.num 0)))
    ∧ ((∃ x ∈ xs, entryValidB x = false) →
        buildX0 h (some xs) = Option.none)
    ∧ buildX0 h Option.none = some (List.replicate h.length 0) := by
  refine ⟨?_, ?_, rfl⟩
  · intro hval
    obtain ⟨l, hl, hll, hg⟩ := resolveX0List_ok h xs hlen hval
    exact ⟨l, by simp [buildX0, hlen, hl], hll, hg⟩
  · intro hex
    simp [buildX0, hlen, resolveX0List_fail h xs hlen hex]

/-- Witness for C8 with `h = [[1,2]]` and the symbolic entry `"C"`. -/
theorem buildX0_resolution_witness :
    ([X0Entry.sym "C"].length = ([[ (1 : ℚ), 2]]).length) ∧
    (∀ x ∈ [X0Entry.sym "C"], entryValidB x = true) ∧
    ∃ l, buildX0 [[(1 : ℚ), 2]] (some [X0Entry.sym "C"]) = some l ∧
      l.length = ([[(1 : ℚ), 2]]).length ∧
      ∀ i, i < ([[(1 : ℚ), 2]]).length →
        l.getD i 0 = entryVal (([[(1 : ℚ), 2]]).getD i [])
          ([X0Entry.sym "C"].getD i (X0Entry.num 0)) := by
  refine ⟨by decide, by decide, ?_⟩
  exact (buildX0_resolution [[(1 : ℚ), 2]] [X0Entry.sym "C"]
    (by decide)).1 (by decide)

/-! Inside test (claim C7). -/

theorem getD_mem_of_lt {α : Type} {l : List α} {i : ℕ} (d : α)
    (hi : i < l.length) : l.getD i d ∈ l := by
  rw [List.getD_eq_getElem l d hi]
  exact List.getElem_mem hi

theorem insideCore_length (t pts : List (List ℚ)) :
    (insideCore t pts).length = pts.length := by
  simp [insideCore]

theorem insideCore_getD (t pts : List (List ℚ)) {k : ℕ} (d : Bool)
    (hk : k < pts.length) :
    (insideCore t pts).getD k d =
      (List.range t.length).all (fun i =>
        decide (npMin (t.getD i []) ≤ (pts.getD k []).getD i 0) &&
        decide ((pts.getD k []).getD i 0 ≤ npMax (t.getD i []))) := by
  unfold insideCore
  rw [List.getD_eq_getElem?_getD, List.getElem?_map,
    List.getElem?_eq_getElem hk, List.getD_eq_getElem pts [] hk]
  rfl

theorem insideCore_getD_iff (t pts : List (List ℚ)) {k : ℕ} (d : Bool)
    (hk : k < pts.length) :
    (insideCore t pts).getD k d = true ↔
      ∀ i, i < t.length →
        npMin (t.getD i []) ≤ (pts.getD k []).getD i 0 ∧
        (pts.getD k []).getD i 0 ≤ npMax (t.getD i []) := by
  rw [insideCore_getD t pts d hk]
  simp only [List.all_eq_true, List.mem_range, Bool.and_eq_true,
    decide_eq_true_eq]

/-- C7: `isInside` returns one boolean per point, true exactly when every
coordinate lies in the closed min/max interval of that axis's selector
vector; in particular it is true on the mesh's own cell-center
coordinates and false for any point exceeding the maximum node coordinate
on some axis. -/
theorem isInside_interval_membership (m : TensorMesh)
    (pts : List (List ℚ)) (locType : String)
    (hd1 : 1 ≤ m.h.length) (hd3 : m.h.length ≤ 3)
    (hpos : ∀ hi ∈ m.h, ∀ w ∈ hi, 0 < w)
    (hne : ∀ hi ∈ m.h, hi ≠ [])
    (_hdim : ∀ p ∈ pts, p.length = m.h.length)
    (t : List (List ℚ)) (v : List Bool)
    (ht : m.getTensor locType = some t)
    (hv : m.isInside pts locType = some v) :
    v.length = pts.length
    ∧ (∀ k, k < pts.length → (v.getD k false = true ↔
        ∀ i, i < t.length →
          npMin (t.getD i []) ≤ (pts.getD k []).getD i 0 ∧
          (pts.getD k []).getD i 0 ≤ npMax (t.getD i [])))
    ∧ (∀ k, k < pts.length →
        (∀ i, i < m.h.length → (pts.getD k []).getD i 0 ∈ ccVecAt m i) →
        v.getD k false = true)
    ∧ (∀ k, k < pts.length →
        (∃ i, i < m.h.length ∧
          npMax (nodeVecAt m i) < (pts.getD k []).getD i 0) →
        v.getD k false = false) := by
  obtain ⟨hlen, haxes⟩ := getTensor_axes m hd1 hd3 ht
  have hv' : v = insideCore t pts := by
    simp only [TensorMesh.isInside, ht, Option.map_some', Option.some_inj]
      at hv
    exact hv.symm
  subst hv'
  refine ⟨insideCore_length t pts, fun k hk => insideCore_getD_iff t pts false hk,
    ?_, ?_⟩
  · intro k hk hcc
    rw [insideCore_getD_iff t pts false hk]
    intro i hi
    have hidim : i < m.h.length := hlen ▸ hi
    have hmem : (pts.getD k []).getD i 0 ∈ ccVecAt m i := hcc i hidim
    rcases haxes i hi with hax | hax
    · rw [hax]
      have hhm : m.h.getD i [] ∈ m.h := getD_mem_of_lt [] hidim
      have hb := mem_ccVec_bounds (hpos _ hhm) (m.x0.getD i 0)
        ((pts.getD k []).getD i 0) hmem
      constructor
      · exact le_trans (npMin_nodeVec_le _ _) (le_of_lt hb.1)
      · exact le_trans (le_of_lt hb.2) (npMax_nodeVec_ge _ _)
    · rw [hax]
      exact ⟨npMin_le_mem hmem, mem_le_npMax hmem⟩
  · intro k hk hex
    rcases hex with ⟨i, hidim, hgt⟩
    have hi : i < t.length := hlen.symm ▸ hidim
    cases hvk : (insideCore t pts).getD k false with
    | false => rfl
    | true =>
      exfalso
      have := (insideCore_getD_iff t pts false hk).mp hvk i hi
      have hle : npMax (t.getD i []) ≤ npMax (nodeVecAt m i) := by
        rcases haxes i hi with hax | hax
        · rw [hax]
        · rw [hax]
          have hhm : m.h.getD i [] ∈ m.h := getD_mem_of_lt [] hidim
          exact npMax_ccVec_le_npMax_nodeVec (hpos _ hhm) (hne _ hhm)
            (m.x0.getD i 0)
      linarith [this.2]

/-- Witness for C7 on the 1-D mesh `h = [[1,2]]`, `x0 = [0]`, query point
`[1/2]`, location type `CC`. -/
theorem isInside_interval_membership_witness :
    (1 ≤ (TensorMesh.mk [[1, 2]] [0]).h.length) ∧
    (∀ hi ∈ (TensorMesh.mk [[1, 2]] [0]).h, ∀ w ∈ hi, 0 < w) ∧
    ((TensorMesh.mk [[1, 2]] [0]).getTensor "CC" =
      some [ccVec [1, 2] 0]) ∧
    ((insideCore [ccVec [1, 2] 0] [[1/2]]).length = ([[(1 : ℚ)/2]]).length
     ∧ (∀ k, k < ([[(1 : ℚ)/2]]).length →
         ((insideCore [ccVec [1, 2] 0] [[1/2]]).getD k false = true ↔
         ∀ i, i < ([ccVec [1, 2] 0]).length →
           npMin (([ccVec [1, 2] 0]).getD i []) ≤
             (([[(1 : ℚ)/2]]).getD k []).getD i 0 ∧
           (([[(1 : ℚ)/2]]).getD k []).getD i 0 ≤
             npMax (([ccVec [1, 2] 0]).getD i [])))
     ∧ (∀ k, k < ([[(1 : ℚ)/2]]).length →
         (∀ i, i < (TensorMesh.mk [[1, 2]] [0]).h.length →
           (([[(1 : ℚ)/2]]).getD k []).getD i 0 ∈
             ccVecAt (TensorMesh.mk [[1, 2]] [0]) i) →
         (insideCore [ccVec [1, 2] 0] [[1/2]]).getD k false = true)
     ∧ (∀ k, k < ([[(1 : ℚ)/2]]).length →
         (∃ i, i < (TensorMesh.mk [[1, 2]] [0]).h.length ∧
           npMax (nodeVecAt (TensorMesh.mk [[1, 2]] [0]) i) <
             (([[(1 : ℚ)/2]]).getD k []).getD i 0) →
         (insideCore [ccVec [1, 2] 0] [[1/2]]).getD k false = false)) := by
  refine ⟨by decide, ?_, rfl, ?_⟩
  · intro hi hhi w hw
    fin_cases hhi
    fin_cases hw <;> norm_num
  · exact isInside_interval_membership (TensorMesh.mk [[1, 2]] [0])
      [[1/2]] "CC" (by decide) (by decide)
      (by intro hi hhi w hw; fin_cases hhi; fin_cases hw <;> norm_num)
      (by intro hi hhi; fin_cases hhi; decide)
      (by intro p hp; fin_cases hp; decide)
      [ccVec [1, 2] 0] (insideCore [ccVec [1, 2] 0] [[1/2]]) rfl rfl

/-! Interpolation-matrix assembly (claims C4, C5).  The multilinear
kernel `Utils.interpmat` and the `spzeros`/`hstack` block layout of
lines 241-251 live outside this file's source; they are abstracted as the
`build` argument, applied to the (possibly replaced) point list.  The
out-of-bounds policy of lines 233-258 is embedded exactly. -/

/-- The six face/edge location types of line 241. -/
def feTypes : List String := ["Fx", "Fy", "Fz", "Ex", "Ey", "Ez"]

/-- Embeds `ind = {'x':0, 'y':1, 'z':2}[locType[1]]` of line 242. -/
def compIdx (s : String) : ℕ :=
  if s = "Fx" ∨ s = "Ex" then 0
  else if s = "Fy" ∨ s = "Ey" then 1
  else 2

/-- Embeds the location-type dispatch of lines 241-253: face/edge types
must satisfy the dimension `assert` of line 243; `CC`/`N` build directly;
anything else raises `NotImplementedError` (embedded as `Option.none`). -/
def dispatchQ (m : TensorMesh) (locType : String) {M K : ℕ}
    (build : String → List (List ℚ) → Matrix (Fin M) (Fin K) ℚ)
    (pts : List (List ℚ)) : Option (Matrix (Fin M) (Fin K) ℚ) :=
  if locType ∈ feTypes then
    if compIdx locType ≤ m.h.length then some (build locType pts)
    else Option.none
  else if locType = "CC" ∨ locType = "N" then some (build locType pts)
  else Option.none

/-- The location types for which `dispatchQ` succeeds on this mesh. -/
def locTypeOK (m : TensorMesh) (s : String) : Bool :=
  if s ∈ feTypes then decide (compIdx s ≤ m.h.length)
  else decide (s = "CC" ∨ s = "N")

/-- Embeds `BaseTensorMesh.getInterpolationMat` (lines 213-258): with
`zerosOutside=False` an outside point (per `isInside` with its default
location type `N`) makes the `assert` on line 236 fail; with
`zerosOutside=True` outside points' coordinates are replaced by the
per-axis means of the `CC` vectors (line 239) before assembly and their
rows are zeroed after assembly (line 256). -/
def TensorMesh.getInterpolationMat (m : TensorMesh) (loc : List (List ℚ))
    (locType : String) (zerosOutside : Bool) {K : ℕ}
    (build : String → List (List ℚ) → Matrix (Fin loc.length) (Fin K) ℚ) :
    Option (Matrix (Fin loc.length) (Fin K) ℚ) :=
  match m.getTensor "N" with
  | Option.none => Option.none
  | some tN =>
    let ins := insideCore tN loc
    if zerosOutside = false then
      if ins.all (fun b => b) then dispatchQ m locType build loc
      else Option.none
    else
      match m.getTensor "CC" with
      | Option.none => Option.none
      | some tCC =>
        let ctr := tCC.map npMean
        let loc2 := List.zipWith (fun p b => if b then p else ctr) loc ins
        (dispatchQ m locType build loc2).map (fun Q =>
          Matrix.of (fun i j => if ins.getD i.val true then Q i j else 0))

/-- Outside the node-extent bounds: on some axis the coordinate leaves
the closed interval spanned by that axis's node vector. -/
def outsideNodeExtent (m : TensorMesh) (p : List ℚ) : Prop :=
  ∃ i, i < m.h.length ∧
    (p.getD i 0 < npMin (nodeVecAt m i) ∨ npMax (nodeVecAt m i) < p.getD i 0)

theorem getD_range_map {α : Type} (f : ℕ → α) {n i : ℕ} (hi : i < n)
    (d : α) : ((List.range n).map f).getD i d = f i := by
  rw [List.getD_eq_getElem?_getD, List.getElem?_map, List.getElem?_range hi]
  rfl

theorem all_id_true_iff (l : List Bool) :
    l.all (fun b => b) = true ↔ ∀ k, k < l.length → l.getD k true = true := by
  rw [List.all_eq_true]
  constructor
  · intro h k hk
    rw [List.getD_eq_getElem l true hk]
    exact h _ (List.getElem_mem hk)
  · intro h x hx
    rcases List.mem_iff_getElem.mp hx with ⟨k, hk, rfl⟩
    rw [← List.getD_eq_getElem l true hk]
    exact h k hk

theorem all_id_false_iff (l : List Bool) :
    l.all (fun b => b) = false ↔
      ∃ k, k < l.length ∧ l.getD k true = false := by
  rw [List.all_eq_false]
  constructor
  · intro h
    rcases h with ⟨x, hx, hxf⟩
    rcases List.mem_iff_getElem.mp hx with ⟨k, hk, rfl⟩
    refine ⟨k, hk, ?_⟩
    rw [List.getD_eq_getElem l true hk]
    exact Bool.not_eq_true _ ▸ hxf
  · intro h
    rcases h with ⟨k, hk, hkf⟩
    refine ⟨l.getD k true, ?_, ?_⟩
    · rw [List.getD_eq_getElem l true hk]
      exact List.getElem_mem hk
    · rw [hkf]
      simp

theorem zipWith_getD {α β γ : Type} (f : α → β → γ) (l1 : List α)
    (l2 : List β) {k : ℕ} (hk1 : k < l1.length) (hk2 : k < l2.length)
    (d1 : α) (d2 : β) (d3 : γ) :
    (List.zipWith f l1 l2).getD k d3 = f (l1.getD k d1) (l2.getD k d2) := by
  rw [List.getD_eq_getElem?_getD, List.getElem?_zipWith,
    List.getElem?_eq_getElem hk1, List.getElem?_eq_getElem hk2,
    List.getD_eq_getElem l1 d1 hk1, List.getD_eq_getElem l2 d2 hk2]
  rfl

theorem dispatchQ_ok (m : TensorMesh) (locType : String) {M K : ℕ}
    (build : String → List (List ℚ) → Matrix (Fin M) (Fin K) ℚ)
    (pts : List (List ℚ)) (hok : locTypeOK m locType = true) :
    dispatchQ m locType build pts = some (build locType pts) := by
  by_cases hfe : locType ∈ feTypes
  · have hc : compIdx locType ≤ m.h.length := by
      simpa [locTypeOK, hfe] using hok
    simp [dispatchQ, hfe, hc]
  · have hc : locType = "CC" ∨ locType = "N" := by
      simpa [locTypeOK, hfe] using hok
    simp [dispatchQ, hfe, hc]

theorem interpMat_cases (m : TensorMesh) (loc : List (List ℚ))
    (locType : String) (K : ℕ)
    (build : String → List (List ℚ) → Matrix (Fin loc.length) (Fin K) ℚ)
    (tN tCC : List (List ℚ))
    (htN : m.getTensor "N" = some tN) (htCC : m.getTensor "CC" = some tCC)
    (hok : locTypeOK m locType = true) :
    (m.getInterpolationMat loc locType false build = Option.none ↔
      ∃ k, k < loc.length ∧ (insideCore tN loc).getD k true = false)
    ∧ ∃ Q, m.getInterpolationMat loc locType true build = some Q ∧
        (∀ i : Fin loc.length,
          (insideCore tN loc).getD i.val true = false → ∀ j, Q i j = 0) ∧
        (∀ i : Fin loc.length,
          (insideCore tN loc).getD i.val true = true → ∀ j,
          Q i j = build locType
            (List.zipWith (fun p b => if b then p else tCC.map npMean)
              loc (insideCore tN loc)) i j) ∧
        (∀ k, k < loc.length → (insideCore tN loc).getD k true = true →
          (List.zipWith (fun p b => if b then p else tCC.map npMean)
            loc (insideCore tN loc)).getD k [] = loc.getD k []) ∧
        (∀ k, k < loc.length → (insideCore tN loc).getD k true = false →
          (List.zipWith (fun p b => if b then p else tCC.map npMean)
            loc (insideCore tN loc)).getD k [] = tCC.map npMean) := by
  have hinslen : (insideCore tN loc).length = loc.length :=
    insideCore_length tN loc
  constructor
  · by_cases hall : (insideCore tN loc).all (fun b => b) = true
    · have hred : m.getInterpolationMat loc locType false build =
          some (build locType loc) := by
        simp only [TensorMesh.getInterpolationMat, htN]
        rw [if_pos trivial, if_pos hall, dispatchQ_ok m locType build loc hok]
      rw [hred]
      constructor
      · intro hc
        exact absurd hc (Option.some_ne_none _)
      · rintro ⟨k, hk, hkf⟩
        have := (all_id_true_iff (insideCore tN loc)).mp hall k
          (hinslen ▸ hk)
        rw [this] at hkf
        cases hkf
    · have hallf : (insideCore tN loc).all (fun b => b) = false :=
        Bool.eq_false_iff.mpr hall
      have hred : m.getInterpolationMat loc locType false build =
          Option.none := by
        simp only [TensorMesh.getInterpolationMat, htN]
        rw [if_pos trivial, if_neg hall]
      rw [hred]
      constructor
      · intro _
        rcases (all_id_false_iff (insideCore tN loc)).mp hallf with
          ⟨k, hk, hkf⟩
        exact ⟨k, hinslen ▸ hk, hkf⟩
      · intro _
        rfl
  · refine ⟨Matrix.of (fun i j =>
      if (insideCore tN loc).getD i.val true then
        build locType
          (List.zipWith (fun p b => if b then p else tCC.map npMean)
            loc (insideCore tN loc)) i j
      else 0), ?_, ?_, ?_, ?_, ?_⟩
    · simp only [TensorMesh.getInterpolationMat, htN, htCC]
      rw [if_neg (by simp),
        dispatchQ_ok m locType build _ hok, Option.map_some']
    · intro i hif j
      simp only [Matrix.of_apply, hif]
      rfl
    · intro i hit j
      simp only [Matrix.of_apply, hit]
      rfl
    · intro k hk hkt
      rw [zipWith_getD _ loc (insideCore tN loc) hk (hinslen ▸ hk)
        [] true []]
      rw [hkt]
      rfl
    · intro k hk hkf
      rw [zipWith_getD _ loc (insideCore tN loc) hk (hinslen ▸ hk)
        [] true []]
      rw [hkf]
      rfl

theorem getTensor_N_eq (m : TensorMesh) (hd1 : 1 ≤ m.h.length)
    (hd3 : m.h.length ≤ 3) :
    m.getTensor "N" = some ((List.range m.h.length).map (nodeVecAt m)) := by
  rw [getTensor_known m hd1 hd3 "N" (by decide)]
  refine congrArg some (List.map_congr_left ?_)
  intro i _
  simp [nodeSel]

theorem getTensor_CC_eq (m : TensorMesh) (hd1 : 1 ≤ m.h.length)
    (hd3 : m.h.length ≤ 3) :
    m.getTensor "CC" = some ((List.range m.h.length).map (ccVecAt m)) := by
  rw [getTensor_known m hd1 hd3 "CC" (by decide)]
  refine congrArg some (List.map_congr_left ?_)
  intro i _
  simp [nodeSel]

theorem insideCore_N_true_iff (m : TensorMesh) (pts : List (List ℚ))
    {k : ℕ} (d : Bool) (hk : k < pts.length) :
    ((insideCore ((List.range m.h.length).map (nodeVecAt m)) pts).getD k d
      = true) ↔ ¬ outsideNodeExtent m (pts.getD k []) := by
  rw [insideCore_getD_iff _ pts d hk]
  constructor
  · intro h hout
    rcases hout with ⟨i, hi, hcase⟩
    have hi' : i < ((List.range m.h.length).map (nodeVecAt m)).length := by
      simpa using hi
    have hb := h i hi'
    rw [getD_range_map (nodeVecAt m) hi []] at hb
    rcases hcase with hlt | hgt
    · linarith [hb.1]
    · linarith [hb.2]
  · intro h i hi
    have hid : i < m.h.length := by simpa using hi
    rw [getD_range_map (nodeVecAt m) hid []]
    constructor
    · by_contra hlt
      push_neg at hlt
      exact h ⟨i, hid, Or.inl hlt⟩
    · by_contra hgt
      push_neg at hgt
      exact h ⟨i, hid, Or.inr hgt⟩

theorem insideCore_N_false_iff (m : TensorMesh) (pts : List (List ℚ))
    {k : ℕ} (d : Bool) (hk : k < pts.length) :
    ((insideCore ((List.range m.h.length).map (nodeVecAt m)) pts).getD k d
      = false) ↔ outsideNodeExtent m (pts.getD k []) := by
  rw [← Bool.not_eq_true, insideCore_N_true_iff m pts d hk]
  exact not_not

/-- C4: with `zerosOutside=False` interpolation fails exactly when some
point is outside (per the default `isInside` test); with
`zerosOutside=True` every outside point's coordinates are replaced by the
per-axis means of the `CC` vectors before assembly, and after assembly
every outside point's row of the returned operator is entirely zero,
inside rows being exactly the assembled rows. -/
theorem getInterpolationMat_outside_policy (m : TensorMesh)
    (loc : List (List ℚ)) (locType : String) (K : ℕ)
    (build : String → List (List ℚ) → Matrix (Fin loc.length) (Fin K) ℚ)
    (tN tCC : List (List ℚ))
    (htN : m.getTensor "N" = some tN) (htCC : m.getTensor "CC" = some tCC)
    (hok : locTypeOK m locType = true) :
    (m.getInterpolationMat loc locType false build = Option.none ↔
      ∃ k, k < loc.length ∧ (insideCore tN loc).getD k true = false)
    ∧ ∃ Q, m.getInterpolationMat loc locType true build = some Q ∧
        (∀ i : Fin loc.length,
          (insideCore tN loc).getD i.val true = false → ∀ j, Q i j = 0) ∧
        (∀ i : Fin loc.length,
          (insideCore tN loc).getD i.val true = true → ∀ j,
          Q i j = build locType
            (List.zipWith (fun p b => if b then p else tCC.map npMean)
              loc (insideCore tN loc)) i j) ∧
        (∀ k, k < loc.length → (insideCore tN loc).getD k true = true →
          (List.zipWith (fun p b => if b then p else tCC.map npMean)
            loc (insideCore tN loc)).getD k [] = loc.getD k []) ∧
        (∀ k, k < loc.length → (insideCore tN loc).getD k true = false →
          (List.zipWith (fun p b => if b then p else tCC.map npMean)
            loc (insideCore tN loc)).getD k [] = tCC.map npMean) :=
  interpMat_cases m loc locType K build tN tCC htN htCC hok

/-- C5: for every supported location type, `getInterpolationMat` decides
inside/outside against the node-extent bounds (the default `N` location
type of `isInside`): reject mode fails exactly when some point leaves the
node extent, and zero-fill mode zeroes exactly the rows of points outside
the node extent — regardless of the requested type's own selector
vectors. -/
theorem getInterpolationMat_node_extent_decides (m : TensorMesh)
    (loc : List (List ℚ)) (locType : String) (K : ℕ)
    (build : String → List (List ℚ) → Matrix (Fin loc.length) (Fin K) ℚ)
    (hd1 : 1 ≤ m.h.length) (hd3 : m.h.length ≤ 3)
    (hok : locTypeOK m locType = true) :
    (m.getInterpolationMat loc locType false build = Option.none ↔
      ∃ k, k < loc.length ∧ outsideNodeExtent m (loc.getD k []))
    ∧ ∃ Q, m.getInterpolationMat loc locType true build = some Q ∧
        (∀ i : Fin loc.length, outsideNodeExtent m (loc.getD i.val []) →
          ∀ j, Q i j = 0) ∧
        (∀ i : Fin loc.length, ¬ outsideNodeExtent m (loc.getD i.val []) →
          ∀ j, Q i j = build locType
            (List.zipWith (fun p b => if b then p else
                ((List.range m.h.length).map (ccVecAt m)).map npMean)
              loc (insideCore ((List.range m.h.length).map (nodeVecAt m))
                loc)) i j) := by
  have base := interpMat_cases m loc locType K build
    ((List.range m.h.length).map (nodeVecAt m))
    ((List.range m.h.length).map (ccVecAt m))
    (getTensor_N_eq m hd1 hd3) (getTensor_CC_eq m hd1 hd3) hok
  constructor
  · rw [base.1]
    constructor
    · rintro ⟨k, hk, hkf⟩
      exact ⟨k, hk, (insideCore_N_false_iff m loc true hk).mp hkf⟩
    · rintro ⟨k, hk, hout⟩
      exact ⟨k, hk, (insideCore_N_false_iff m loc true hk).mpr hout⟩
  · rcases base.2 with ⟨Q, hQ, hzero, hbuild, _, _⟩
    refine ⟨Q, hQ, ?_, ?_⟩
    · intro i hout j
      exact hzero i ((insideCore_N_false_iff m loc true i.isLt).mpr hout) j
    · intro i hin j
      exact hbuild i ((insideCore_N_true_iff m loc true i.isLt).mpr hin) j

/-- Concrete 1-D mesh for the interpolation witnesses. -/
def wMesh : TensorMesh := TensorMesh.mk [[1, 1]] [0]

/-- Concrete query-point list for the interpolation witnesses. -/
def wLoc : List (List ℚ) := [[5]]

/-- Concrete stand-in for the external interpolation kernel. -/
def wBuild : String → List (List ℚ) → Matrix (Fin wLoc.length) (Fin 1) ℚ :=
  fun _ _ => Matrix.of (fun _ _ => 0)

/-- Witness for C4 on `wMesh` with location type `CC`. -/
theorem getInterpolationMat_outside_policy_witness :
    (wMesh.getTensor "N" = some [nodeVec [1, 1] 0]) ∧
    (wMesh.getTensor "CC" = some [ccVec [1, 1] 0]) ∧
    (locTypeOK wMesh "CC" = true) ∧
    ((wMesh.getInterpolationMat wLoc "CC" false wBuild = Option.none ↔
      ∃ k, k < wLoc.length ∧
        (insideCore [nodeVec [1, 1] 0] wLoc).getD k true = false)
    ∧ ∃ Q, wMesh.getInterpolationMat wLoc "CC" true wBuild = some Q ∧
        (∀ i : Fin wLoc.length,
          (insideCore [nodeVec [1, 1] 0] wLoc).getD i.val true = false →
            ∀ j, Q i j = 0) ∧
        (∀ i : Fin wLoc.length,
          (insideCore [nodeVec [1, 1] 0] wLoc).getD i.val true = true →
            ∀ j, Q i j = wBuild "CC"
            (List.zipWith
              (fun p b => if b then p else ([ccVec [1, 1] 0]).map npMean)
              wLoc (insideCore [nodeVec [1, 1] 0] wLoc)) i j) ∧
        (∀ k, k < wLoc.length →
          (insideCore [nodeVec [1, 1] 0] wLoc).getD k true = true →
          (List.zipWith
            (fun p b => if b then p else ([ccVec [1, 1] 0]).map npMean)
            wLoc (insideCore [nodeVec [1, 1] 0] wLoc)).getD k [] =
              wLoc.getD k []) ∧
        (∀ k, k < wLoc.length →
          (insideCore [nodeVec [1, 1] 0] wLoc).getD k true = false →
          (List.zipWith
            (fun p b => if b then p else ([ccVec [1, 1] 0]).map npMean)
            wLoc (insideCore [nodeVec [1, 1] 0] wLoc)).getD k [] =
              ([ccVec [1, 1] 0]).map npMean)) :=
  ⟨rfl, rfl, by decide,
    getInterpolationMat_outside_policy wMesh wLoc "CC" 1 wBuild
      [nodeVec [1, 1] 0] [ccVec [1, 1] 0] rfl rfl (by decide)⟩

/-- Witness for C5 on `wMesh` with location type `N`. -/
theorem getInterpolationMat_node_extent_decides_witness :
    (1 ≤ wMesh.h.length) ∧ (wMesh.h.length ≤ 3) ∧
    (locTypeOK wMesh "N" = true) ∧
    ((wMesh.getInterpolationMat wLoc "N" false wBuild = Option.none ↔
      ∃ k, k < wLoc.length ∧ outsideNodeExtent wMesh (wLoc.getD k []))
    ∧ ∃ Q, wMesh.getInterpolationMat wLoc "N" true wBuild = some Q ∧
        (∀ i : Fin wLoc.length,
          outsideNodeExtent wMesh (wLoc.getD i.val []) → ∀ j, Q i j = 0) ∧
        (∀ i : Fin wLoc.length,
          ¬ outsideNodeExtent wMesh (wLoc.getD i.val []) →
          ∀ j, Q i j = wBuild "N"
            (List.zipWith (fun p b => if b then p else
                ((List.range wMesh.h.length).map (ccVecAt wMesh)).map npMean)
              wLoc (insideCore
                ((List.range wMesh.h.length).map (nodeVecAt wMesh))
                wLoc)) i j)) :=
  ⟨by decide, by decide, by decide,
    getInterpolationMat_node_extent_decides wMesh wLoc "N" 1 wBuild
      (by decide) (by decide) (by decide)⟩

/-! Fast inner products (claims C1, C2, C3), embedding
`_fastInnerProduct` (lines 291-327) and `_fastInnerProductDeriv`
(lines 347-377).  The averaging operators `ave{F,E}2CC` / `ave{F,E}2CCV`
and `self.vol`, `self.nC`, `self.dim` are the only mesh data used; the
averaging operators come from the external `DiffOperators` mixin, so they
are carried as abstract matrices, and quantifying over them covers both
`AvType = F` and `AvType = E`. -/

/-- The mesh data consumed by the fast inner-product assemblers: `nC`
cells, spatial dimension `d`, `nA` face or edge degrees of freedom, the
cell volumes, and the two externally supplied averaging operators. -/
structure FIPData (nC d nA : ℕ) where
  vol : Fin nC → ℚ
  av2CC : Matrix (Fin nC) (Fin nA) ℚ
  av2CCV : Matrix (Fin d × Fin nC) (Fin nA) ℚ

/-- The `prop` argument: Python `None`, a scalar, or a numpy vector. -/
inductive PropArg where
  | noneP
  | scalarP (c : ℚ)
  | arrP (l : List ℚ)

/-- Modelled from the spec: `Utils.sdInv` (line 325) is not under `src/`;
per the spec the assembled operator is guaranteed diagonal and its
inversion is the element-wise reciprocal of the diagonal, never a general
solve. -/
def sdInv {n : Type} [DecidableEq n] [Fintype n] (M : Matrix n n ℚ) :
    Matrix n n ℚ :=
  Matrix.diagonal (fun i => (M i i)⁻¹)

/-- Embeds `sp.kron(sp.identity(self.dim), Utils.sdiag(self.vol))` of
lines 319 and 374, indexing the `nC*dim` degrees of freedom by
`(axis, cell)` pairs. -/
def kronIdVol (d nC : ℕ) (vol : Fin nC → ℚ) :
    Matrix (Fin d × Fin nC) (Fin d × Fin nC) ℚ :=
  Matrix.kroneckerMap (· * ·) (1 : Matrix (Fin d) (Fin d) ℚ)
    (Matrix.diagonal vol)

/-- Embeds lines 304-311 in statement order: `None` becomes `ones(nC)`,
then `invProp` takes the element-wise reciprocal, then a scalar is
broadcast to `scalar * ones(nC)`. -/
def resolveProp (nC : ℕ) (prop : PropArg) (invProp : Bool) : List ℚ :=
  let p1 : ℚ ⊕ List ℚ :=
    match prop with
    | PropArg.noneP => Sum.inr (List.replicate nC 1)
    | PropArg.scalarP c => Sum.inl c
    | PropArg.arrP l => Sum.inr l
  let p2 : ℚ ⊕ List ℚ :=
    if invProp then
      match p1 with
      | Sum.inl c => Sum.inl (1 / c)
      | Sum.inr l => Sum.inr (l.map (fun x => 1 / x))
    else p1
  match p2 with
  | Sum.inl c => List.replicate nC c
  | Sum.inr l => l

/-- `Utils.mkvc` of a length-`nC` property vector. -/
def vecOfList (nC : ℕ) (l : List ℚ) : Fin nC → ℚ :=
  fun i => l.getD i.val 0

/-- `Utils.mkvc` of a length-`nC*dim` property vector, read in the
`[x-block; y-block; z-block]` layout. -/
def vecOfListV (d nC : ℕ) (l : List ℚ) : Fin d × Fin nC → ℚ :=
  fun x => l.getD (x.1.val * nC + x.2.val) 0

/-- Embeds `BaseTensorMesh._fastInnerProduct` (lines 291-327). -/
def fastInnerProduct {nC d nA : ℕ} (D : FIPData nC d nA) (prop : PropArg)
    (invProp invMat : Bool) : Option (Matrix (Fin nA) (Fin nA) ℚ) :=
  let p := resolveProp nC prop invProp
  if p.length = nC then
    let Vprop : Fin nC → ℚ := fun i => D.vol i * vecOfList nC p i
    let M := (d : ℚ) • Matrix.diagonal
      (Matrix.mulVec (Matrix.transpose D.av2CC) Vprop)
    some (if invMat then sdInv M else M)
  else if p.length = nC * d then
    let M := Matrix.diagonal (Matrix.mulVec (Matrix.transpose D.av2CCV)
      (Matrix.mulVec (kronIdVol d nC D.vol) (vecOfListV d nC p)))
    some (if invMat then sdInv M else M)
  else Option.none

/-- The derivative's four possible results, mirroring the shapes Python
returns: nothing, an `nA × 1` column, an `nA × nC` matrix,
or an `nA × (nC*dim)` matrix. -/
inductive DerivResult (nA nC d : ℕ) where
  | noneR
  | scalarD (M : Matrix (Fin nA) (Fin 1) ℚ)
  | cellD (M : Matrix (Fin nA) (Fin nC) ℚ)
  | anisoD (M : Matrix (Fin nA) (Fin d × Fin nC) ℚ)

/-- The all-ones `nC × 1` column of line 360. -/
def onesCol (nC : ℕ) : Matrix (Fin nC) (Fin 1) ℚ :=
  Matrix.of (fun _ _ => 1)

/-- Embeds `BaseTensorMesh._fastInnerProductDeriv` (lines 347-377); a
fall-through past all branches is Python's implicit `None`. -/
def fastInnerProductDeriv {nC d nA : ℕ} (D : FIPData nC d nA)
    (prop : PropArg) (v : Option (Fin nA → ℚ)) : DerivResult nA nC d :=
  match prop with
  | PropArg.noneP => DerivResult.noneR
  | PropArg.scalarP _ =>
    let B := (d : ℚ) • (Matrix.transpose D.av2CC * Matrix.diagonal D.vol *
      onesCol nC)
    match v with
    | Option.none => DerivResult.scalarD B
    | some w => DerivResult.scalarD (Matrix.diagonal w * B)
  | PropArg.arrP l =>
    if l.length = nC then
      let B := (d : ℚ) • (Matrix.transpose D.av2CC * Matrix.diagonal D.vol)
      match v with
      | Option.none => DerivResult.cellD B
      | some w => DerivResult.cellD (Matrix.diagonal w * B)
    else if l.length = nC * d then
      let B := Matrix.transpose D.av2CCV * kronIdVol d nC D.vol
      match v with
      | Option.none => DerivResult.anisoD B
      | some w => DerivResult.anisoD (Matrix.diagonal w * B)
    else DerivResult.noneR

/-- Left-multiplication of a derivative result by `diag(v)`. -/
def lmulDeriv {nA nC d : ℕ} (w : Fin nA → ℚ) :
    DerivResult nA nC d → DerivResult nA nC d
  | DerivResult.noneR => DerivResult.noneR
  | DerivResult.scalarD M => DerivResult.scalarD (Matrix.diagonal w * M)
  | DerivResult.cellD M => DerivResult.cellD (Matrix.diagonal w * M)
  | DerivResult.anisoD M => DerivResult.anisoD (Matrix.diagonal w * M)

/-- The property resolution as the specification words it: `None` becomes
`ones(nC)` and a scalar becomes `scalar*ones(nC)` first, then the
element-wise reciprocal is applied when `invertProperty` is set. -/
def specResolvedProp (nC : ℕ) (prop : PropArg) (invProp : Bool) :
    List ℚ :=
  let base : List ℚ :=
    match prop with
    | PropArg.noneP => List.replicate nC 1
    | PropArg.scalarP c => List.replicate nC c
    | PropArg.arrP l => l
  if invProp then base.map (fun x => 1 / x) else base

theorem resolveProp_eq_spec (nC : ℕ) (prop : PropArg) (invProp : Bool) :
    resolveProp nC prop invProp = specResolvedProp nC prop invProp := by
  cases prop <;> cases invProp <;>
    simp [resolveProp, specResolvedProp, List.map_replicate]

/-- C1: the fast inner product resolves the property (None → ones(nC),
scalar → scalar·ones(nC)), takes its element-wise reciprocal first when
`invertProperty` is set, then builds `d · diag(Avᵗ (vol ⊙ p))` with the
scalar averaging operator when the resolved size is `nC`, and
`diag(AvVᵗ · kron(I_d, diag(vol)) · p)` with the vector averaging
operator (no extra `d` factor) when the size is `nC·d`; `invertResult`
returns the per-diagonal-entry reciprocal of the assembled operator. -/
theorem fastInnerProduct_formulas {nC d nA : ℕ} (D : FIPData nC d nA)
    (prop : PropArg) (invProp : Bool) :
    (((specResolvedProp nC prop invProp).length = nC) →
      fastInnerProduct D prop invProp false = some
        ((d : ℚ) • Matrix.diagonal
          (Matrix.mulVec (Matrix.transpose D.av2CC)
            (fun i => D.vol i *
              vecOfList nC (specResolvedProp nC prop invProp) i))))
    ∧ (((specResolvedProp nC prop invProp).length = nC * d) →
       ((specResolvedProp nC prop invProp).length ≠ nC) →
      fastInnerProduct D prop invProp false = some
        (Matrix.diagonal (Matrix.mulVec (Matrix.transpose D.av2CCV)
          (Matrix.mulVec (kronIdVol d nC D.vol)
            (vecOfListV d nC (specResolvedProp nC prop invProp))))))
    ∧ (∀ M, fastInnerProduct D prop invProp false = some M →
        fastInnerProduct D prop invProp true =
          some (Matrix.diagonal (fun i => (M i i)⁻¹))) := by
  refine ⟨?_, ?_, ?_⟩
  · intro hlen
    simp only [fastInnerProduct, resolveProp_eq_spec]
    rw [if_pos hlen]
    simp
  · intro hlen hne
    simp only [fastInnerProduct, resolveProp_eq_spec]
    rw [if_neg hne, if_pos hlen]
    simp
  · intro M hM
    simp only [fastInnerProduct, resolveProp_eq_spec] at hM ⊢
    by_cases h1 : (specResolvedProp nC prop invProp).length = nC
    · rw [if_pos h1] at hM ⊢
      simp only [if_neg Bool.false_ne_true, Option.some_inj] at hM
      rw [if_pos trivial, hM]
      rfl
    · by_cases h2 : (specResolvedProp nC prop invProp).length = nC * d
      · rw [if_neg h1, if_pos h2] at hM ⊢
        simp only [if_neg Bool.false_ne_true, Option.some_inj] at hM
        rw [if_pos trivial, hM]
        rfl
      · rw [if_neg h1, if_neg h2] at hM
        cases hM

/-- Concrete data for the fast inner-product witnesses: one cell, two
dimensions, one face degree of freedom, all entries `1`. -/
def wFIP : FIPData 1 2 1 :=
  FIPData.mk (fun _ => 1) (Matrix.of (fun _ _ => 1)) (Matrix.of (fun _ _ => 1))

/-- Witness for C1: the `None` property resolves to size `nC = 1` and the
isotropic formula with its `invertResult` reciprocal applies. -/
theorem fastInnerProduct_formulas_witness :
    ((specResolvedProp 1 PropArg.noneP false).length = 1) ∧
    (fastInnerProduct wFIP PropArg.noneP false false = some
      ((2 : ℚ) • Matrix.diagonal
        (Matrix.mulVec (Matrix.transpose wFIP.av2CC)
          (fun i => wFIP.vol i *
            vecOfList 1 (specResolvedProp 1 PropArg.noneP false) i)))) ∧
    (fastInnerProduct wFIP PropArg.noneP false true = some
      (Matrix.diagonal (fun i =>
        (((2 : ℚ) • Matrix.diagonal
          (Matrix.mulVec (Matrix.transpose wFIP.av2CC)
            (fun i => wFIP.vol i *
              vecOfList 1 (specResolvedProp 1 PropArg.noneP false) i)))
          i i)⁻¹))) := by
  have h1 := (fastInnerProduct_formulas wFIP PropArg.noneP false).1
    (by decide)
  exact ⟨by decide, h1,
    (fastInnerProduct_formulas wFIP PropArg.noneP false).2.2 _ h1⟩

/-- C2: the fast inner-product derivative returns nothing for a `None`
property; `d · Avᵗ · diag(vol) · ones` (one column) for a scalar;
`d · Avᵗ · diag(vol)` for a size-`nC` property; `AvVᵗ · kron(I_d,
diag(vol))` with no `d` factor for a size-`nC·d` property; and a supplied
vector `v` left-multiplies the result by `diag(v)`. -/
theorem fastInnerProductDeriv_formulas {nC d nA : ℕ}
    (D : FIPData nC d nA) :
    (∀ v, fastInnerProductDeriv D PropArg.noneP v = DerivResult.noneR)
    ∧ (∀ c, fastInnerProductDeriv D (PropArg.scalarP c) Option.none =
        DerivResult.scalarD ((d : ℚ) • (Matrix.transpose D.av2CC *
          Matrix.diagonal D.vol * onesCol nC)))
    ∧ (∀ l : List ℚ, l.length = nC →
        fastInnerProductDeriv D (PropArg.arrP l) Option.none =
          DerivResult.cellD ((d : ℚ) • (Matrix.transpose D.av2CC *
            Matrix.diagonal D.vol)))
    ∧ (∀ l : List ℚ, l.length = nC * d → l.length ≠ nC →
        fastInnerProductDeriv D (PropArg.arrP l) Option.none =
          DerivResult.anisoD (Matrix.transpose D.av2CCV *
            kronIdVol d nC D.vol))
    ∧ (∀ prop w, fastInnerProductDeriv D prop (some w) =
        lmulDeriv w (fastInnerProductDeriv D prop Option.none)) := by
  refine ⟨fun v => rfl, fun c => rfl, ?_, ?_, ?_⟩
  · intro l hl
    simp only [fastInnerProductDeriv]
    rw [if_pos hl]
  · intro l hl hne
    simp only [fastInnerProductDeriv]
    rw [if_neg hne, if_pos hl]
  · intro prop w
    cases prop with
    | noneP => rfl
    | scalarP c => rfl
    | arrP l =>
      simp only [fastInnerProductDeriv]
      by_cases h1 : l.length = nC
      · rw [if_pos h1, if_pos h1]
        rfl
      · by_cases h2 : l.length = nC * d
        · rw [if_neg h1, if_pos h2, if_neg h1, if_pos h2]
          rfl
        · rw [if_neg h1, if_neg h2, if_neg h1, if_neg h2]
          rfl

/-- Witness for C2: per-cell and anisotropic sizes on `wFIP`. -/
theorem fastInnerProductDeriv_formulas_witness :
    (([(3 : ℚ)]).length = 1) ∧
    (([(3 : ℚ), 4]).length = 1 * 2) ∧
    (fastInnerProductDeriv wFIP (PropArg.arrP [3]) Option.none =
      DerivResult.cellD ((2 : ℚ) • (Matrix.transpose wFIP.av2CC *
        Matrix.diagonal wFIP.vol))) ∧
    (fastInnerProductDeriv wFIP (PropArg.arrP [3, 4]) Option.none =
      DerivResult.anisoD (Matrix.transpose wFIP.av2CCV *
        kronIdVol 2 1 wFIP.vol)) :=
  ⟨by decide, by decide,
    (fastInnerProductDeriv_formulas wFIP).2.2.1 [3] (by decide),
    (fastInnerProductDeriv_formulas wFIP).2.2.2.1 [3, 4] (by decide)
      (by decide)⟩

/-- C3: an array property whose size is neither `nC` nor `nC·dim` makes
both the fast inner product and its derivative return no operator
(Python `None`), never an exception, so callers can fall back to the
generic assembler. -/
theorem fastInnerProduct_not_applicable {nC d nA : ℕ}
    (D : FIPData nC d nA) (l : List ℚ) (invProp invMat : Bool)
    (v : Option (Fin nA → ℚ))
    (h1 : l.length ≠ nC) (h2 : l.length ≠ nC * d) :
    fastInnerProduct D (PropArg.arrP l) invProp invMat = Option.none
    ∧ fastInnerProductDeriv D (PropArg.arrP l) v = DerivResult.noneR := by
  have hres : (resolveProp nC (PropArg.arrP l) invProp).length = l.length := by
    cases invProp <;> simp [resolveProp]
  constructor
  · simp only [fastInnerProduct]
    rw [if_neg (by rw [hres]; exact h1), if_neg (by rw [hres]; exact h2)]
  · simp only [fastInnerProductDeriv]
    rw [if_neg h1, if_neg h2]

/-- Witness for C3: a length-3 property on `wFIP` (`nC = 1`, `d = 2`). -/
theorem fastInnerProduct_not_applicable_witness :
    (([(1 : ℚ), 2, 3]).length ≠ 1) ∧ (([(1 : ℚ), 2, 3]).length ≠ 1 * 2) ∧
    (fastInnerProduct wFIP (PropArg.arrP [1, 2, 3]) true true =
      Option.none) ∧
    (fastInnerProductDeriv wFIP (PropArg.arrP [1, 2, 3]) Option.none =
      DerivResult.noneR) := by
  have h := fastInnerProduct_not_applicable wFIP [1, 2, 3] true true
    Option.none (by decide) (by decide)
  exact ⟨by decide, by decide, h.1, h.2⟩

end SimPEG
